import Mathlib

/-!
Shallow embedding of the light-client header-update path of the ibc-go
repository (07-tendermint `update.go`), of the wasm light client's
`MergedClientStore`, and of the spec's channel-level `recvPacket`
operation, together with theorems settling the frozen claims about them.

Machine integers of the source (uint64 revision numbers/heights,
timestamps in nanoseconds) are modelled as `Nat`; byte slices as
`List Nat`; `time.Time` comparisons (`Before`/`After`) as `<`/`>` on the
`Nat` timestamps.
-/

namespace Ibc

/-- Height is the (revisionNumber, revisionHeight) pair of
`02-client/types`, totally ordered by revision number first. -/
structure Height where
  revisionNumber : Nat
  revisionHeight : Nat
  deriving DecidableEq, Repr

/-- Strict order on heights: compare revision number first, then
revision height (the `Height.LT` comparison of `02-client/types`). -/
def Height.lt (a b : Height) : Prop :=
  a.revisionNumber < b.revisionNumber ∨
    (a.revisionNumber = b.revisionNumber ∧ a.revisionHeight < b.revisionHeight)

instance : DecidablePred (fun p : Height × Height => p.1.lt p.2) := by
  intro p; unfold Height.lt; infer_instance

instance Height.decLt (a b : Height) : Decidable (a.lt b) := by
  unfold Height.lt; infer_instance

/-- Non-strict order on heights (`Height.LTE`). -/
def Height.lte (a b : Height) : Prop := a.lt b ∨ a = b

instance Height.decLte (a b : Height) : Decidable (a.lte b) := by
  unfold Height.lte; infer_instance

/-- `Height.GT`: `a` is strictly above `b`. -/
def Height.gt (a b : Height) : Prop := b.lt a

instance Height.decGt (a b : Height) : Decidable (a.gt b) := by
  unfold Height.gt; infer_instance

theorem Height.lt_irrefl (a : Height) : ¬ a.lt a := by
  unfold Height.lt; omega

theorem Height.lt_trans {a b c : Height} (h1 : a.lt b) (h2 : b.lt c) : a.lt c := by
  unfold Height.lt at *; omega

theorem Height.lt_asymm {a b : Height} (h : a.lt b) : ¬ b.lt a := by
  unfold Height.lt at *; omega

theorem Height.lt_total (a b : Height) : a.lt b ∨ a = b ∨ b.lt a := by
  unfold Height.lt
  rcases a with ⟨ra, ha⟩; rcases b with ⟨rb, hb⟩
  simp only [Height.mk.injEq]
  omega

theorem Height.ne_of_lt {a b : Height} (h : a.lt b) : a ≠ b := by
  intro he; subst he; exact Height.lt_irrefl a h

/-- The zero height: a zero frozen height means "not frozen". -/
def zeroHeight : Height := ⟨0, 0⟩

/-- The sentinel frozen height `{0, 1}` set on misbehaviour
(`FrozenHeight` in the 07-tendermint package). -/
def frozenSentinel : Height := ⟨0, 1⟩

theorem frozenSentinel_ne_zero : frozenSentinel ≠ zeroHeight := by decide

/-- ConsensusState: timestamp, commitment root (app hash) and
next-validator-set hash, one per height per client. -/
structure ConsensusState where
  timestamp : Nat
  root : Nat
  nextValidatorsHash : Nat
  deriving DecidableEq, Repr

/-- The 07-tendermint ClientState fields named by the spec's data model. -/
structure ClientState where
  chainId : Nat
  trustLevelNum : Nat
  trustLevelDen : Nat
  trustingPeriod : Nat
  maxClockDrift : Nat
  unbondingPeriod : Nat
  latestHeight : Height
  frozenHeight : Height
  deriving DecidableEq, Repr

/-- A tendermint Header as consumed by `CheckHeaderAndUpdateState`:
its signed-header height and time, app hash and next-validators hash,
the trusted height, the hash of the embedded trusted validator set, and
an abstract bit standing for the external commit-signature verification
(`VerifyCommitLightTrusting` / `VerifyCommitLight`) succeeding. -/
structure Header where
  height : Height
  trustedHeight : Height
  time : Nat
  appHash : Nat
  nextValidatorsHash : Nat
  trustedValidatorsHash : Nat
  commitValid : Bool
  deriving DecidableEq, Repr

/-- `Header.ConsensusState()`: the consensus state derived from a header. -/
def Header.consensusState (h : Header) : ConsensusState :=
  ⟨h.time, h.appHash, h.nextValidatorsHash⟩

/-- A stored consensus-state cell: either a well-formed consensus state
or corrupted bytes that fail to unmarshal. -/
inductive ConsEntry where
  | good (c : ConsensusState)
  | corrupt
  deriving DecidableEq, Repr

/-- The per-client store: consensus states keyed by height, plus the set
of heights carrying consensus metadata (processed time/height keys). -/
structure ClientStore where
  cons : List (Height × ConsEntry)
  meta : List Height
  deriving DecidableEq, Repr

/-- First entry stored under a height, if any. -/
def lookupEntry : List (Height × ConsEntry) → Height → Option ConsEntry
  | [], _ => none
  | p :: rest, h => if p.1 = h then some p.2 else lookupEntry rest h

/-- Remove every entry stored under a height. -/
def removeKey (l : List (Height × ConsEntry)) (h : Height) : List (Height × ConsEntry) :=
  l.filter (fun p => decide (p.1 ≠ h))

/-- The well-formed consensus state stored under a height, if any. -/
def consAt (l : List (Height × ConsEntry)) (h : Height) : Option ConsensusState :=
  match lookupEntry l h with
  | some (ConsEntry.good c) => some c
  | _ => none

/-- Modelled from the spec: the client store's `get(height)` as observed
through a nil-check (`GetConsensusState` of the 07-tendermint store
helpers, which are not part of the sources): absent or unparseable
entries read as `none`. -/
def getConsensusState (st : ClientStore) (h : Height) : Option ConsensusState :=
  consAt st.cons h

/-- Modelled from the spec: the client store's `get(height)` with its
error (`GetConsensusState` returning a non-nil error when the entry is
absent or cannot be unmarshalled). -/
def getConsensusStateE (st : ClientStore) (h : Height) : Except Unit ConsensusState :=
  match lookupEntry st.cons h with
  | some (ConsEntry.good c) => Except.ok c
  | _ => Except.error ()

/-- Modelled from the spec: `getPrevious(height)` — the stored consensus
state at the largest height strictly below the given one
(`GetPreviousConsensusState`). -/
def getPrevCons : List (Height × ConsEntry) → Height → Option (Height × ConsensusState)
  | [], _ => none
  | p :: rest, h =>
    let r := getPrevCons rest h
    match p.2 with
    | ConsEntry.corrupt => r
    | ConsEntry.good c =>
      if p.1.lt h then
        match r with
        | none => some (p.1, c)
        | some q => if p.1.lt q.1 then r else some (p.1, c)
      else r

/-- Modelled from the spec: `getNext(height)` — the stored consensus
state at the smallest height strictly above the given one
(`GetNextConsensusState`). -/
def getNextCons : List (Height × ConsEntry) → Height → Option (Height × ConsensusState)
  | [], _ => none
  | p :: rest, h =>
    let r := getNextCons rest h
    match p.2 with
    | ConsEntry.corrupt => r
    | ConsEntry.good c =>
      if h.lt p.1 then
        match r with
        | none => some (p.1, c)
        | some q => if q.1.lt p.1 then r else some (p.1, c)
      else r

/-- Modelled from the spec: the first height visited by
`IterateConsensusStateAscending` — the smallest height holding a stored
entry (heights are iterated in ascending order and the pruning callback
stops after the first). -/
def earliestEntry : List (Height × ConsEntry) → Option (Height × ConsEntry)
  | [] => none
  | p :: rest =>
    match earliestEntry rest with
    | none => some p
    | some q => if q.1.lt p.1 then some q else some p

/-- Modelled from the spec: the store's `set(height, state)`
(`SetConsensusState` performed by the client keeper). -/
def setConsStore (st : ClientStore) (h : Height) (c : ConsensusState) : ClientStore :=
  { st with cons := (h, ConsEntry.good c) :: removeKey st.cons h }

/-- `deleteConsensusState`: remove the consensus state stored at a height. -/
def deleteConsState (st : ClientStore) (h : Height) : ClientStore :=
  { st with cons := removeKey st.cons h }

/-- `setConsensusMetadata`: record processed time/height metadata for a
height. -/
def setConsMetadata (st : ClientStore) (h : Height) : ClientStore :=
  { st with meta := h :: st.meta.filter (fun x => decide (x ≠ h)) }

/-- `deleteConsensusMetadata`: drop the metadata stored for a height. -/
def deleteConsMetadata (st : ClientStore) (h : Height) : ClientStore :=
  { st with meta := st.meta.filter (fun x => decide (x ≠ h)) }

/-- `ClientState.IsExpired`: a consensus state is expired when its
timestamp plus the trusting period is not after the current time. -/
def ClientState.isExpired (cs : ClientState) (ts now : Nat) : Prop :=
  ts + cs.trustingPeriod ≤ now

instance (cs : ClientState) (ts now : Nat) : Decidable (cs.isExpired ts now) := by
  unfold ClientState.isExpired; infer_instance

/-- Errors surfaced by the header-update path. -/
inductive UpdateErr where
  | invalidValidatorSet
  | invalidHeaderHeight
  | invalidHeader
  | verificationFailed
  | trustedConsAbsent
  deriving DecidableEq, Repr

/-- Result of a header update: a new (client state, consensus state)
pair, a synchronous error, or an unrecoverable abort (a Go `panic`). -/
inductive UpdateRes where
  | ok (cs : ClientState) (cons : ConsensusState)
  | err (e : UpdateErr)
  | abort
  deriving DecidableEq, Repr

/-- `checkTrustedHeader`: the header's embedded trusted validator set
must hash to the stored consensus state's next-validators hash. -/
def checkTrustedHeader (h : Header) (consState : ConsensusState) : Except UpdateErr Unit :=
  if h.trustedValidatorsHash = consState.nextValidatorsHash then Except.ok ()
  else Except.error UpdateErr.invalidValidatorSet

/-- Modelled from the spec: the external `light.Verify` primitive
(tendermint light-client bisection verification, an external
collaborator): the trusting period must not have elapsed for the trusted
consensus state, the header timestamp must be after the trusted
timestamp and within max clock drift of the current time, and a
trust-threshold portion of the trusted validators (or two thirds of the
new set) must have signed the commit — the signature portion is the
header's abstract `commitValid` bit. -/
def lightVerify (cs : ClientState) (trusted : ConsensusState) (h : Header) (now : Nat) : Bool :=
  decide (now < trusted.timestamp + cs.trustingPeriod) &&
    decide (trusted.timestamp < h.time) &&
    decide (h.time < now + cs.maxClockDrift) &&
    h.commitValid

/-- `checkValidity`: structural validity of a header against the trusted
consensus state — trusted-validator hash check, same-revision check,
height strictly above the trusted height, then light verification. -/
def checkValidity (cs : ClientState) (consState : ConsensusState) (h : Header) (now : Nat) :
    Except UpdateErr Unit := do
  checkTrustedHeader h consState
  if h.height.revisionNumber ≠ h.trustedHeight.revisionNumber then
    throw UpdateErr.invalidHeaderHeight
  else if h.height.lte h.trustedHeight then
    throw UpdateErr.invalidHeader
  else if lightVerify cs consState h now then
    pure ()
  else
    throw UpdateErr.verificationFailed

/-- `pruneOldestConsensusState`: look at the earliest stored consensus
state; if reading it fails the Go code panics (`none` here); if it is
expired, delete it together with its metadata. -/
def pruneOldestConsensusState (cs : ClientState) (now : Nat) (st : ClientStore) :
    Option ClientStore :=
  match earliestEntry st.cons with
  | none => some st
  | some (_, ConsEntry.corrupt) => none
  | some (h, ConsEntry.good c) =>
    if cs.isExpired c.timestamp now then
      some (deleteConsMetadata (deleteConsState st h) h)
    else
      some st

/-- `UpdateState`: no-op on a duplicate height, otherwise prune the
oldest expired consensus state, bump the latest height when the header
is above it, derive the new consensus state and record its metadata. -/
def updateState (cs : ClientState) (st : ClientStore) (h : Header) (now : Nat) :
    UpdateRes × ClientStore :=
  match getConsensusState st h.height with
  | some c => (UpdateRes.ok cs c, st)
  | none =>
    match pruneOldestConsensusState cs now st with
    | none => (UpdateRes.abort, st)
    | some st1 =>
      let cs1 := if h.height.gt cs.latestHeight then { cs with latestHeight := h.height } else cs
      (UpdateRes.ok cs1 h.consensusState, setConsMetadata st1 h.height)

/-- `CheckHeaderAndUpdateState`: early-return on a bit-for-bit duplicate,
flag a conflicting header, validate against the trusted consensus state,
freeze on conflict or on a timestamp-monotonicity violation against the
neighbouring consensus states, otherwise run `UpdateState`. -/
def checkHeaderAndUpdateState (cs : ClientState) (st : ClientStore) (h : Header) (now : Nat) :
    UpdateRes × ClientStore :=
  let derived := h.consensusState
  let dispatch : Bool → UpdateRes × ClientStore := fun conflicting =>
    match getConsensusStateE st h.trustedHeight with
    | Except.error _ => (UpdateRes.err UpdateErr.trustedConsAbsent, st)
    | Except.ok trusted =>
      match checkValidity cs trusted h now with
      | Except.error e => (UpdateRes.err e, st)
      | Except.ok _ =>
        if conflicting then
          (UpdateRes.ok { cs with frozenHeight := frozenSentinel } derived, st)
        else
          let frozenRes : UpdateRes × ClientStore :=
            (UpdateRes.ok { cs with frozenHeight := frozenSentinel } derived, st)
          let checkNext : UpdateRes × ClientStore :=
            match getNextCons st.cons h.height with
            | some q =>
              if q.2.timestamp ≤ derived.timestamp then frozenRes else updateState cs st h now
            | none => updateState cs st h now
          match getPrevCons st.cons h.height with
          | some p =>
            if derived.timestamp ≤ p.2.timestamp then frozenRes else checkNext
          | none => checkNext
  match getConsensusState st h.height with
  | some prev =>
    if prev = derived then (UpdateRes.ok cs prev, st)
    else dispatch true
  | none => dispatch false

/-- Modelled from the spec: the client keeper's UpdateClient wrapper
(02-client keeper, not part of the sources): on success it persists the
returned client state, and records the returned consensus state at the
header height only when the returned client state is not frozen ("do not
store the conflicting state" / "record the new consensus state"); on
error nothing is mutated. The middle component is the persisted client
state. -/
def updateClient (cs : ClientState) (st : ClientStore) (h : Header) (now : Nat) :
    UpdateRes × ClientState × ClientStore :=
  match checkHeaderAndUpdateState cs st h now with
  | (UpdateRes.ok cs1 cons, st1) =>
    if cs1.frozenHeight = zeroHeight then
      (UpdateRes.ok cs1 cons, cs1, setConsStore st1 h.height cons)
    else
      (UpdateRes.ok cs1 cons, cs1, st1)
  | (r, st1) => (r, cs, st1)

/-! ### Channel-level packet receipt (spec §4.4) -/

/-- Channel ordering (immutable after creation). -/
inductive ChanOrdering where
  | ordered
  | unordered
  deriving DecidableEq, Repr

/-- Channel handshake state. -/
inductive ChanState where
  | initial
  | tryopen
  | opened
  | closed
  deriving DecidableEq, Repr

/-- A channel end as recvPacket needs it. -/
structure ChannelEnd where
  ordering : ChanOrdering
  state : ChanState
  deriving DecidableEq, Repr

/-- A packet (ports and channel identifiers abstracted to numbers,
payload opaque). -/
structure Packet where
  sourcePort : Nat
  sourceChannel : Nat
  destPort : Nat
  destChannel : Nat
  sequence : Nat
  payload : Nat
  timeoutHeight : Height
  timeoutTimestamp : Nat
  deriving DecidableEq, Repr

/-- Channel-side store: channels, packet receipts, acknowledgements and
the per-channel NextSequenceRecv counters. -/
structure ChannelStore where
  channels : List ((Nat × Nat) × ChannelEnd)
  receipts : List (Nat × Nat × Nat)
  acks : List ((Nat × Nat × Nat) × Nat)
  nextSeqRecv : List ((Nat × Nat) × Nat)
  deriving DecidableEq, Repr

/-- Errors of recvPacket. -/
inductive RecvErr where
  | channelNotFound
  | orderingViolation
  | timeoutElapsed
  | proofInvalid
  deriving DecidableEq, Repr

/-- Result of recvPacket. -/
inductive RecvRes where
  | ok
  | err (e : RecvErr)
  deriving DecidableEq, Repr

/-- Events a recvPacket call may emit. -/
inductive PacketEvent where
  | appRecv
  | appRecvError
  deriving DecidableEq, Repr

/-- Everything a recvPacket call produces: the synchronous result, the
resulting store, whether the application callback ran, and the emitted
application events. -/
structure RecvOutcome where
  res : RecvRes
  store : ChannelStore
  appCalled : Bool
  events : List PacketEvent
  deriving DecidableEq, Repr

/-- NextSequenceRecv for a channel; counters start at 1. -/
def nextRecvFor (st : ChannelStore) (k : Nat × Nat) : Nat :=
  (st.nextSeqRecv.lookup k).getD 1

/-- Whether the packet's timeout bounds have elapsed at the destination
chain's height and time. -/
def timeoutElapsedAt (pk : Packet) (destHeight : Height) (destTime : Nat) : Bool :=
  (decide (pk.timeoutHeight ≠ zeroHeight) && decide (pk.timeoutHeight.lte destHeight)) ||
    (decide (pk.timeoutTimestamp ≠ 0) && decide (pk.timeoutTimestamp ≤ destTime))

/-- Modelled from the spec: `recvPacket(packet, proof, proofHeight)` of
§4.4 (the 04-channel keeper is not part of the sources, only its tests):
resolve the destination channel; for ORDERED require the expected
sequence, for UNORDERED return success as a no-op when a receipt already
exists (replay); reject elapsed timeouts and failed commitment proofs
(the proof check abstracted to a boolean); run the application callback;
on revert write nothing and record only an error event; on success write
the receipt (UNORDERED) or advance NextSequenceRecv (ORDERED) and any
synchronous acknowledgement. -/
def recvPacket (st : ChannelStore) (pk : Packet) (destHeight : Height) (destTime : Nat)
    (proofOk : Bool) (app : Packet → Option Nat × Bool) : RecvOutcome :=
  match st.channels.lookup (pk.destPort, pk.destChannel) with
  | none => ⟨RecvRes.err RecvErr.channelNotFound, st, false, []⟩
  | some ch =>
    let key : Nat × Nat × Nat := (pk.destPort, pk.destChannel, pk.sequence)
    let proceed : RecvOutcome :=
      if timeoutElapsedAt pk destHeight destTime then
        ⟨RecvRes.err RecvErr.timeoutElapsed, st, false, []⟩
      else if proofOk then
        let ar := app pk
        if ar.2 then
          let st1 :=
            match ch.ordering with
            | ChanOrdering.unordered => { st with receipts := key :: st.receipts }
            | ChanOrdering.ordered =>
              { st with nextSeqRecv :=
                  ((pk.destPort, pk.destChannel), pk.sequence + 1) ::
                    st.nextSeqRecv.filter (fun p => decide (p.1 ≠ (pk.destPort, pk.destChannel))) }
          let st2 :=
            match ar.1 with
            | some a => { st1 with acks := (key, a) :: st1.acks }
            | none => st1
          ⟨RecvRes.ok, st2, true, [PacketEvent.appRecv]⟩
        else
          ⟨RecvRes.ok, st, true, [PacketEvent.appRecvError]⟩
      else
        ⟨RecvRes.err RecvErr.proofInvalid, st, false, []⟩
    match ch.ordering with
    | ChanOrdering.ordered =>
      if pk.sequence ≠ nextRecvFor st (pk.destPort, pk.destChannel) then
        ⟨RecvRes.err RecvErr.orderingViolation, st, false, []⟩
      else proceed
    | ChanOrdering.unordered =>
      if st.receipts.contains key then ⟨RecvRes.ok, st, false, []⟩
      else proceed

/-! ### The wasm light client's MergedClientStore -/

/-- A raw byte-keyed key/value store. -/
abbrev KVMap := List (List Nat × List Nat)

/-- `KVStore.Set` on a raw store. -/
def kvSet (m : KVMap) (k v : List Nat) : KVMap :=
  (k, v) :: m.filter (fun p => decide (p.1 ≠ k))

/-- `KVStore.Delete` on a raw store. -/
def kvDelete (m : KVMap) (k : List Nat) : KVMap :=
  m.filter (fun p => decide (p.1 ≠ k))

/-- The bytes of `"subject/"`. -/
def subjectPfx : List Nat := [115, 117, 98, 106, 101, 99, 116, 47]

/-- The bytes of `"substitute/"`. -/
def substitutePfx : List Nat := [115, 117, 98, 115, 116, 105, 116, 117, 116, 101, 47]

/-- `SplitPrefix`: split a key into its recognized prefix (or nil) and
the remainder. -/
def splitPfx (key : List Nat) : List Nat × List Nat :=
  if subjectPfx.isPrefixOf key then (subjectPfx, key.drop subjectPfx.length)
  else if substitutePfx.isPrefixOf key then (substitutePfx, key.drop substitutePfx.length)
  else ([], key)

/-- `MergedClientStore` combines the subject and substitute client
stores; both serve reads, only the subject store accepts writes. -/
structure MergedClientStore where
  subjectStore : KVMap
  substituteStore : KVMap
  deriving DecidableEq, Repr

/-- `MergedClientStore.Set`: writes solely to the subject store; no-op
unless the key carries the "subject/" prefix. -/
def mergedSet (ws : MergedClientStore) (key value : List Nat) : MergedClientStore :=
  let pk := splitPfx key
  if pk.1 = subjectPfx then { ws with subjectStore := kvSet ws.subjectStore pk.2 value }
  else ws

/-- `MergedClientStore.Delete`: deletes solely from the subject store;
no-op unless the key carries the "subject/" prefix. -/
def mergedDelete (ws : MergedClientStore) (key : List Nat) : MergedClientStore :=
  let pk := splitPfx key
  if pk.1 = subjectPfx then { ws with subjectStore := kvDelete ws.subjectStore pk.2 }
  else ws

/-! ### Invariants and concrete fixtures -/

/-- No height keys two entries of the store. -/
def keysNodup (l : List (Height × ConsEntry)) : Prop :=
  (l.map Prod.fst).Nodup

instance (l : List (Height × ConsEntry)) : Decidable (keysNodup l) := by
  unfold keysNodup; infer_instance

/-- Timestamp monotonicity over the stored consensus states of a list. -/
def MonotonicL (l : List (Height × ConsEntry)) : Prop :=
  ∀ h1 c1 h2 c2, consAt l h1 = some c1 → consAt l h2 = some c2 →
    h1.lt h2 → c1.timestamp < c2.timestamp

/-- Timestamp monotonicity over the stored consensus states of a client
store: heights `h1 < h2` always carry `timestamp h1 < timestamp h2`. -/
def Monotonic (st : ClientStore) : Prop :=
  MonotonicL st.cons

/-- A sample client state: trusting period 100, max clock drift 10,
latest height (0, 5), not frozen. -/
def csEx : ClientState := ⟨1, 1, 3, 100, 10, 200, ⟨0, 5⟩, zeroHeight⟩

/-- Trusted consensus state at height (0, 5): timestamp 50,
next-validators hash 7. -/
def trustedConsEx : ConsensusState := ⟨50, 3, 7⟩

/-- A header at height (0, 10) over trusted height (0, 5), timestamp 60. -/
def hdrEx : Header := ⟨⟨0, 10⟩, ⟨0, 5⟩, 60, 8, 9, 7, true⟩

/-- Store holding only the trusted consensus state. -/
def storeEx : ClientStore := ⟨[(⟨0, 5⟩, ConsEntry.good trustedConsEx)], [⟨0, 5⟩]⟩

/-- Store that already holds the consensus state derived from `hdrEx`. -/
def storeDupEx : ClientStore :=
  ⟨[(⟨0, 5⟩, ConsEntry.good trustedConsEx), (⟨0, 10⟩, ConsEntry.good ⟨60, 8, 9⟩)], [⟨0, 5⟩]⟩

/-- Store holding a conflicting consensus state at `hdrEx`'s height
(same height, different timestamp). -/
def storeConflictEx : ClientStore :=
  ⟨[(⟨0, 5⟩, ConsEntry.good trustedConsEx), (⟨0, 10⟩, ConsEntry.good ⟨61, 8, 9⟩)], [⟨0, 5⟩]⟩

/-- Store holding a later consensus state at height (0, 12) whose
timestamp 55 is not after `hdrEx`'s timestamp 60. -/
def storeNextViolEx : ClientStore :=
  ⟨[(⟨0, 5⟩, ConsEntry.good trustedConsEx), (⟨0, 12⟩, ConsEntry.good ⟨55, 9, 9⟩)], [⟨0, 5⟩]⟩

/-- Store whose earliest consensus-state entry is corrupted. -/
def corruptStoreEx : ClientStore := ⟨[(⟨0, 5⟩, ConsEntry.corrupt)], []⟩

/-- Trusted consensus state with timestamp 0 (spec scenario: header at
t = 0 trusted). -/
def trustedCons0Ex : ConsensusState := ⟨0, 3, 7⟩

/-- Store holding only the timestamp-0 trusted consensus state. -/
def storeT0Ex : ClientStore := ⟨[(⟨0, 5⟩, ConsEntry.good trustedCons0Ex)], []⟩

/-- Header with timestamp 140 (spec scenario: delivered at t = 150,
trusting period 100 elapsed). -/
def hdrLateEx : Header := ⟨⟨0, 10⟩, ⟨0, 5⟩, 140, 8, 9, 7, true⟩

/-- Header whose height (0, 4) is below its trusted height (0, 5). -/
def hdrLowEx : Header := ⟨⟨0, 4⟩, ⟨0, 5⟩, 60, 8, 9, 7, true⟩

/-- Channel store with one UNORDERED open channel at (2, 3) whose
sequence-1 packet has already been received. -/
def chanStoreEx : ChannelStore :=
  ⟨[((2, 3), ⟨ChanOrdering.unordered, ChanState.opened⟩)], [(2, 3, 1)], [], []⟩

/-- The sequence-1 packet addressed to channel (2, 3). -/
def pkEx : Packet := ⟨4, 6, 2, 3, 1, 11, ⟨1, 10000⟩, 0⟩

/-- A merged client store with one entry in each underlying store. -/
def wsEx : MergedClientStore := ⟨[([1], [2])], [([3], [4])]⟩

/-! ### Lemmas about the store primitives -/

theorem lookupEntry_removeKey (l : List (Height × ConsEntry)) (h g : Height) :
    lookupEntry (removeKey l h) g = if g = h then none else lookupEntry l g := by
  induction l with
  | nil => by_cases hg : g = h <;> simp [removeKey, lookupEntry, hg]
  | cons p rest ih =>
    rcases p with ⟨ph, pe⟩
    by_cases hph : ph = h <;> by_cases hg : g = h <;> by_cases hpg : ph = g <;>
      simp_all [removeKey, List.filter_cons, lookupEntry]

theorem consAt_removeKey (l : List (Height × ConsEntry)) (h g : Height) :
    consAt (removeKey l h) g = if g = h then none else consAt l g := by
  by_cases hg : g = h <;> simp [consAt, lookupEntry_removeKey, hg]

theorem consAt_setHead (l : List (Height × ConsEntry)) (h g : Height) (c : ConsensusState) :
    consAt ((h, ConsEntry.good c) :: removeKey l h) g =
      if g = h then some c else consAt l g := by
  by_cases hg : g = h <;>
    simp [consAt, lookupEntry, hg, lookupEntry_removeKey, Ne.symm]

theorem mem_of_lookupEntry {l : List (Height × ConsEntry)} {h : Height} {e : ConsEntry}
    (hl : lookupEntry l h = some e) : (h, e) ∈ l := by
  induction l with
  | nil => simp [lookupEntry] at hl
  | cons p rest ih =>
    rcases p with ⟨ph, pe⟩
    by_cases hph : ph = h
    · subst hph
      simp [lookupEntry] at hl
      subst hl
      exact List.mem_cons_self _ _
    · simp [lookupEntry, hph] at hl
      exact List.mem_cons_of_mem _ (ih hl)

theorem lookupEntry_of_mem {l : List (Height × ConsEntry)} {h : Height} {e : ConsEntry}
    (hnd : keysNodup l) (hm : (h, e) ∈ l) : lookupEntry l h = some e := by
  induction l with
  | nil => simp at hm
  | cons p rest ih =>
    rcases p with ⟨ph, pe⟩
    simp only [keysNodup, List.map_cons, List.nodup_cons] at hnd
    rcases List.mem_cons.mp hm with hh | ht
    · cases hh
      simp [lookupEntry]
    · have hne : ph ≠ h := by
        intro he
        subst he
        exact hnd.1 (List.mem_map.mpr ⟨(ph, e), ht, rfl⟩)
      simp [lookupEntry, hne]
      exact ih hnd.2 ht

theorem consAt_some_mem {l : List (Height × ConsEntry)} {h : Height} {c : ConsensusState}
    (hc : consAt l h = some c) : (h, ConsEntry.good c) ∈ l := by
  unfold consAt at hc
  cases he : lookupEntry l h with
  | none => rw [he] at hc; simp at hc
  | some e =>
    rw [he] at hc
    cases e with
    | corrupt => simp at hc
    | good c0 =>
      simp at hc
      subst hc
      exact mem_of_lookupEntry he

theorem consAt_of_mem {l : List (Height × ConsEntry)} {h : Height} {c : ConsensusState}
    (hnd : keysNodup l) (hm : (h, ConsEntry.good c) ∈ l) : consAt l h = some c := by
  unfold consAt
  rw [lookupEntry_of_mem hnd hm]

theorem earliestEntry_mem {l : List (Height × ConsEntry)} {p : Height × ConsEntry}
    (he : earliestEntry l = some p) : p ∈ l := by
  induction l with
  | nil => simp [earliestEntry] at he
  | cons q rest ih =>
    simp only [earliestEntry] at he
    cases hr : earliestEntry rest with
    | none =>
      rw [hr] at he
      simp at he
      subst he
      exact List.mem_cons_self _ _
    | some r =>
      rw [hr] at he
      by_cases hlt : r.1.lt q.1 <;> simp [hlt] at he <;> subst he
      · exact List.mem_cons_of_mem _ (ih hr)
      · exact List.mem_cons_self _ _

theorem getPrevCons_mem {l : List (Height × ConsEntry)} {h hp : Height} {cp : ConsensusState}
    (hE : getPrevCons l h = some (hp, cp)) :
    (hp, ConsEntry.good cp) ∈ l ∧ hp.lt h := by
  induction l with
  | nil => simp [getPrevCons] at hE
  | cons p rest ih =>
    rcases p with ⟨ph, pe⟩
    cases pe with
    | corrupt =>
      simp only [getPrevCons] at hE
      rcases ih hE with ⟨hm, hlt⟩
      exact ⟨List.mem_cons_of_mem _ hm, hlt⟩
    | good c =>
      by_cases hlt : ph.lt h
      · simp only [getPrevCons, hlt, if_pos] at hE
        cases hr : getPrevCons rest h with
        | none =>
          rw [hr] at hE
          simp at hE
          rcases hE with ⟨h1, h2⟩
          subst h1; subst h2
          exact ⟨List.mem_cons_self _ _, hlt⟩
        | some q =>
          rw [hr] at hE
          by_cases hq : ph.lt q.1
          · simp [hq] at hE
            subst hE
            rcases ih hr with ⟨hm, hl⟩
            exact ⟨List.mem_cons_of_mem _ hm, hl⟩
          · simp [hq] at hE
            rcases hE with ⟨h1, h2⟩
            subst h1; subst h2
            exact ⟨List.mem_cons_self _ _, hlt⟩
      · simp only [getPrevCons, hlt, if_neg, not_false_iff] at hE
        rcases ih hE with ⟨hm, hl⟩
        exact ⟨List.mem_cons_of_mem _ hm, hl⟩

theorem getPrevCons_none {l : List (Height × ConsEntry)} {h : Height}
    (hE : getPrevCons l h = none) :
    ∀ h' c', (h', ConsEntry.good c') ∈ l → ¬ h'.lt h := by
  induction l with
  | nil => intro h' c' hm; simp at hm
  | cons p rest ih =>
    rcases p with ⟨ph, pe⟩
    intro h' c' hm hlt'
    cases pe with
    | corrupt =>
      simp only [getPrevCons] at hE
      rcases List.mem_cons.mp hm with hh | ht
      · simp at hh
      · exact ih hE h' c' ht hlt'
    | good c =>
      by_cases hlt : ph.lt h
      · simp only [getPrevCons, hlt, if_pos] at hE
        cases hr : getPrevCons rest h with
        | none => rw [hr] at hE; simp at hE
        | some q => rw [hr] at hE; by_cases hq : ph.lt q.1 <;> simp [hq] at hE
      · simp only [getPrevCons, hlt, if_neg, not_false_iff] at hE
        rcases List.mem_cons.mp hm with hh | ht
        · rw [Prod.mk.injEq] at hh
          exact hlt (hh.1 ▸ hlt')
        · exact ih hE h' c' ht hlt'

theorem getPrevCons_max {l : List (Height × ConsEntry)} {h hp : Height} {cp : ConsensusState}
    (hE : getPrevCons l h = some (hp, cp)) :
    ∀ h' c', (h', ConsEntry.good c') ∈ l → h'.lt h → ¬ hp.lt h' := by
  induction l generalizing hp cp with
  | nil => simp [getPrevCons] at hE
  | cons p rest ih =>
    rcases p with ⟨ph, pe⟩
    intro h' c' hm hlt' hph'
    cases pe with
    | corrupt =>
      simp only [getPrevCons] at hE
      rcases List.mem_cons.mp hm with hh | ht
      · simp at hh
      · exact ih hE h' c' ht hlt' hph'
    | good c =>
      by_cases hlt : ph.lt h
      · simp only [getPrevCons, hlt, if_pos] at hE
        cases hr : getPrevCons rest h with
        | none =>
          rw [hr] at hE
          simp at hE
          rcases hE with ⟨h1, _⟩
          subst h1
          rcases List.mem_cons.mp hm with hh | ht
          · rw [Prod.mk.injEq] at hh
            exact Height.lt_irrefl _ (hh.1 ▸ hph')
          · exact getPrevCons_none hr h' c' ht hlt'
        | some q =>
          rcases q with ⟨qh, qc⟩
          rw [hr] at hE
          by_cases hq : ph.lt qh
          · simp [hq] at hE
            rcases hE with ⟨h1, _⟩
            subst h1
            rcases List.mem_cons.mp hm with hh | ht
            · rw [Prod.mk.injEq] at hh
              exact Height.lt_asymm hq (hh.1 ▸ hph')
            · exact ih hr h' c' ht hlt' hph'
          · simp [hq] at hE
            rcases hE with ⟨h1, _⟩
            subst h1
            rcases List.mem_cons.mp hm with hh | ht
            · rw [Prod.mk.injEq] at hh
              exact Height.lt_irrefl _ (hh.1 ▸ hph')
            · have hnq : ¬ qh.lt h' := ih hr h' c' ht hlt'
              rcases Height.lt_total qh h' with hlt1 | heq | hlt2
              · exact hnq hlt1
              · exact hq (heq ▸ hph')
              · exact hq (Height.lt_trans hph' hlt2)
      · simp only [getPrevCons, hlt, if_neg, not_false_iff] at hE
        rcases List.mem_cons.mp hm with hh | ht
        · rw [Prod.mk.injEq] at hh
          exact hlt (hh.1 ▸ hlt')
        · exact ih hE h' c' ht hlt' hph'

theorem getNextCons_mem {l : List (Height × ConsEntry)} {h hn : Height} {cn : ConsensusState}
    (hE : getNextCons l h = some (hn, cn)) :
    (hn, ConsEntry.good cn) ∈ l ∧ h.lt hn := by
  induction l generalizing hn cn with
  | nil => simp [getNextCons] at hE
  | cons p rest ih =>
    rcases p with ⟨ph, pe⟩
    cases pe with
    | corrupt =>
      simp only [getNextCons] at hE
      rcases ih hE with ⟨hm, hlt⟩
      exact ⟨List.mem_cons_of_mem _ hm, hlt⟩
    | good c =>
      by_cases hlt : h.lt ph
      · simp only [getNextCons, hlt, if_pos] at hE
        cases hr : getNextCons rest h with
        | none =>
          rw [hr] at hE
          simp at hE
          rcases hE with ⟨h1, h2⟩
          subst h1; subst h2
          exact ⟨List.mem_cons_self _ _, hlt⟩
        | some q =>
          rcases q with ⟨qh, qc⟩
          rw [hr] at hE
          by_cases hq : qh.lt ph
          · simp [hq] at hE
            rcases hE with ⟨h1, h2⟩
            subst h1; subst h2
            rcases ih hr with ⟨hm, hl⟩
            exact ⟨List.mem_cons_of_mem _ hm, hl⟩
          · simp [hq] at hE
            rcases hE with ⟨h1, h2⟩
            subst h1; subst h2
            exact ⟨List.mem_cons_self _ _, hlt⟩
      · simp only [getNextCons, hlt, if_neg, not_false_iff] at hE
        rcases ih hE with ⟨hm, hl⟩
        exact ⟨List.mem_cons_of_mem _ hm, hl⟩

theorem getNextCons_none {l : List (Height × ConsEntry)} {h : Height}
    (hE : getNextCons l h = none) :
    ∀ h' c', (h', ConsEntry.good c') ∈ l → ¬ h.lt h' := by
  induction l with
  | nil => intro h' c' hm; simp at hm
  | cons p rest ih =>
    rcases p with ⟨ph, pe⟩
    intro h' c' hm hlt'
    cases pe with
    | corrupt =>
      simp only [getNextCons] at hE
      rcases List.mem_cons.mp hm with hh | ht
      · simp at hh
      · exact ih hE h' c' ht hlt'
    | good c =>
      by_cases hlt : h.lt ph
      · simp only [getNextCons, hlt, if_pos] at hE
        cases hr : getNextCons rest h with
        | none => rw [hr] at hE; simp at hE
        | some q => rw [hr] at hE; by_cases hq : q.1.lt ph <;> simp [hq] at hE
      · simp only [getNextCons, hlt, if_neg, not_false_iff] at hE
        rcases List.mem_cons.mp hm with hh | ht
        · rw [Prod.mk.injEq] at hh
          exact hlt (hh.1 ▸ hlt')
        · exact ih hE h' c' ht hlt'

theorem getNextCons_min {l : List (Height × ConsEntry)} {h hn : Height} {cn : ConsensusState}
    (hE : getNextCons l h = some (hn, cn)) :
    ∀ h' c', (h', ConsEntry.good c') ∈ l → h.lt h' → ¬ h'.lt hn := by
  induction l generalizing hn cn with
  | nil => simp [getNextCons] at hE
  | cons p rest ih =>
    rcases p with ⟨ph, pe⟩
    intro h' c' hm hlt' hph'
    cases pe with
    | corrupt =>
      simp only [getNextCons] at hE
      rcases List.mem_cons.mp hm with hh | ht
      · simp at hh
      · exact ih hE h' c' ht hlt' hph'
    | good c =>
      by_cases hlt : h.lt ph
      · simp only [getNextCons, hlt, if_pos] at hE
        cases hr : getNextCons rest h with
        | none =>
          rw [hr] at hE
          simp at hE
          rcases hE with ⟨h1, _⟩
          subst h1
          rcases List.mem_cons.mp hm with hh | ht
          · rw [Prod.mk.injEq] at hh
            exact Height.lt_irrefl _ (hh.1 ▸ hph')
          · exact getNextCons_none hr h' c' ht hlt'
        | some q =>
          rcases q with ⟨qh, qc⟩
          rw [hr] at hE
          by_cases hq : qh.lt ph
          · simp [hq] at hE
            rcases hE with ⟨h1, _⟩
            subst h1
            rcases List.mem_cons.mp hm with hh | ht
            · rw [Prod.mk.injEq] at hh
              exact Height.lt_asymm hq (hh.1 ▸ hph')
            · exact ih hr h' c' ht hlt' hph'
          · simp [hq] at hE
            rcases hE with ⟨h1, _⟩
            subst h1
            rcases List.mem_cons.mp hm with hh | ht
            · rw [Prod.mk.injEq] at hh
              exact Height.lt_irrefl _ (hh.1 ▸ hph')
            · have hnq : ¬ h'.lt qh := ih hr h' c' ht hlt'
              rcases Height.lt_total h' qh with hlt1 | heq | hlt2
              · exact hnq hlt1
              · exact hq (heq ▸ hph')
              · exact hq (Height.lt_trans hlt2 hph')
      · simp only [getNextCons, hlt, if_neg, not_false_iff] at hE
        rcases List.mem_cons.mp hm with hh | ht
        · rw [Prod.mk.injEq] at hh
          exact hlt (hh.1 ▸ hlt')
        · exact ih hE h' c' ht hlt' hph'

theorem monoL_subset {l1 l2 : List (Height × ConsEntry)}
    (hsub : ∀ g c, consAt l1 g = some c → consAt l2 g = some c)
    (hm : MonotonicL l2) : MonotonicL l1 :=
  fun h1 c1 h2 c2 a b c => hm h1 c1 h2 c2 (hsub _ _ a) (hsub _ _ b) c

theorem prune_subset {cs : ClientState} {now : Nat} {st st1 : ClientStore}
    (hp : pruneOldestConsensusState cs now st = some st1) :
    ∀ g c, consAt st1.cons g = some c → consAt st.cons g = some c := by
  unfold pruneOldestConsensusState at hp
  cases he : earliestEntry st.cons with
  | none =>
    rw [he] at hp
    simp at hp
    subst hp
    exact fun g c hc => hc
  | some p =>
    rcases p with ⟨e, pe⟩
    rw [he] at hp
    cases pe with
    | corrupt => simp at hp
    | good c0 =>
      by_cases hex : cs.isExpired c0.timestamp now
      · simp [hex] at hp
        subst hp
        intro g c hc
        simp only [deleteConsMetadata, deleteConsState] at hc
        rw [consAt_removeKey] at hc
        by_cases hg : g = e
        · simp [hg] at hc
        · simpa [hg] using hc
      · simp [hex] at hp
        subst hp
        exact fun g c hc => hc

theorem monoL_insert {l l' : List (Height × ConsEntry)} {hh : Height} {d : ConsensusState}
    (hsub : ∀ g c, consAt l' g = some c → consAt l g = some c)
    (hnd : keysNodup l)
    (hm : MonotonicL l)
    (hprev : ∀ hp cp, getPrevCons l hh = some (hp, cp) → cp.timestamp < d.timestamp)
    (hnext : ∀ hn cn, getNextCons l hh = some (hn, cn) → d.timestamp < cn.timestamp) :
    MonotonicL ((hh, ConsEntry.good d) :: removeKey l' hh) := by
  intro h1 c1 h2 c2 hc1 hc2 hlt
  rw [consAt_setHead] at hc1 hc2
  by_cases e1 : h1 = hh <;> by_cases e2 : h2 = hh
  · exact absurd hlt (e1 ▸ e2 ▸ Height.lt_irrefl hh)
  · rw [if_pos e1] at hc1
    rw [e1] at hlt
    have hc1d : c1 = d := by injection hc1 with hx; exact hx.symm
    subst hc1d
    rw [if_neg e2] at hc2
    have hc2l : consAt l h2 = some c2 := hsub _ _ hc2
    have hm2 : (h2, ConsEntry.good c2) ∈ l := consAt_some_mem hc2l
    cases hn : getNextCons l hh with
    | none => exact absurd hlt (getNextCons_none hn h2 c2 hm2)
    | some q =>
      rcases q with ⟨qh, qc⟩
      have hd := hnext _ _ hn
      have hqmem : (qh, ConsEntry.good qc) ∈ l := (getNextCons_mem hn).1
      have hqcons : consAt l qh = some qc := consAt_of_mem hnd hqmem
      have hmin : ¬ h2.lt qh := getNextCons_min hn h2 c2 hm2 hlt
      rcases Height.lt_total qh h2 with hlt1 | heq | hlt2
      · exact lt_trans hd (hm qh qc h2 c2 hqcons hc2l hlt1)
      · rw [heq] at hqcons
        rw [hc2l] at hqcons
        injection hqcons with hqc
        rw [hqc]
        exact hd
      · exact absurd hlt2 hmin
  · rw [if_pos e2] at hc2
    rw [e2] at hlt
    have hc2d : c2 = d := by injection hc2 with hx; exact hx.symm
    subst hc2d
    rw [if_neg e1] at hc1
    have hc1l : consAt l h1 = some c1 := hsub _ _ hc1
    have hm1 : (h1, ConsEntry.good c1) ∈ l := consAt_some_mem hc1l
    cases hp : getPrevCons l hh with
    | none => exact absurd hlt (getPrevCons_none hp h1 c1 hm1)
    | some q =>
      rcases q with ⟨qh, qc⟩
      have hd := hprev _ _ hp
      have hqmem : (qh, ConsEntry.good qc) ∈ l := (getPrevCons_mem hp).1
      have hqcons : consAt l qh = some qc := consAt_of_mem hnd hqmem
      have hmax : ¬ qh.lt h1 := getPrevCons_max hp h1 c1 hm1 hlt
      rcases Height.lt_total h1 qh with hlt1 | heq | hlt2
      · exact lt_trans (hm h1 c1 qh qc hc1l hqcons hlt1) hd
      · rw [← heq] at hqcons
        rw [hc1l] at hqcons
        injection hqcons with hqc
        rw [hqc]
        exact hd
      · exact absurd hlt2 hmax
  · rw [if_neg e1] at hc1
    rw [if_neg e2] at hc2
    exact hm h1 c1 h2 c2 (hsub _ _ hc1) (hsub _ _ hc2) hlt

theorem chaus_err_of_validity_err {cs : ClientState} {st : ClientStore} {h : Header} {now : Nat}
    {trusted : ConsensusState} {e : UpdateErr}
    (hnotdup : ∀ p, getConsensusState st h.height = some p → p ≠ h.consensusState)
    (htr : getConsensusStateE st h.trustedHeight = Except.ok trusted)
    (hval : checkValidity cs trusted h now = Except.error e) :
    checkHeaderAndUpdateState cs st h now = (UpdateRes.err e, st) := by
  unfold checkHeaderAndUpdateState
  cases hc : getConsensusState st h.height with
  | none => simp only [hc, htr, hval]
  | some p =>
    have hne : p ≠ h.consensusState := hnotdup p hc
    simp only [hc, htr, hval, if_neg hne]

theorem chaus_err_of_trusted_absent {cs : ClientState} {st : ClientStore} {h : Header} {now : Nat}
    (hnotdup : ∀ p, getConsensusState st h.height = some p → p ≠ h.consensusState)
    (htr : getConsensusStateE st h.trustedHeight = Except.error ()) :
    checkHeaderAndUpdateState cs st h now = (UpdateRes.err UpdateErr.trustedConsAbsent, st) := by
  unfold checkHeaderAndUpdateState
  cases hc : getConsensusState st h.height with
  | none => simp only [hc, htr]
  | some p =>
    have hne : p ≠ h.consensusState := hnotdup p hc
    simp only [hc, htr, if_neg hne]

theorem updateClient_of_err {cs : ClientState} {st : ClientStore} {h : Header} {now : Nat}
    {e : UpdateErr}
    (hch : checkHeaderAndUpdateState cs st h now = (UpdateRes.err e, st)) :
    updateClient cs st h now = (UpdateRes.err e, cs, st) := by
  unfold updateClient
  rw [hch]

theorem checkValidity_err_of_bad_height (cs : ClientState) (trusted : ConsensusState)
    (h : Header) (now : Nat)
    (hbad : h.height.lte h.trustedHeight ∨
      h.height.revisionNumber ≠ h.trustedHeight.revisionNumber) :
    ∃ e, checkValidity cs trusted h now = Except.error e := by
  unfold checkValidity checkTrustedHeader
  by_cases hh : h.trustedValidatorsHash = trusted.nextValidatorsHash
  · by_cases hrev : h.height.revisionNumber ≠ h.trustedHeight.revisionNumber
    · exact ⟨UpdateErr.invalidHeaderHeight, by simp [hh, hrev]; rfl⟩
    · have hlte : h.height.lte h.trustedHeight := by
        rcases hbad with hb | hb
        · exact hb
        · exact absurd hb hrev
      exact ⟨UpdateErr.invalidHeader, by simp [hh, hrev, hlte]; rfl⟩
  · exact ⟨UpdateErr.invalidValidatorSet, by simp [hh]; rfl⟩

theorem updateState_shape (cs : ClientState) (st : ClientStore) (h : Header) (now : Nat)
    (hc : getConsensusState st h.height = none) :
    (updateState cs st h now = (UpdateRes.abort, st)) ∨
    (∃ st1 cs1, pruneOldestConsensusState cs now st = some st1 ∧
      updateState cs st h now =
        (UpdateRes.ok cs1 h.consensusState, setConsMetadata st1 h.height)) := by
  unfold updateState
  rw [hc]
  cases hpr : pruneOldestConsensusState cs now st with
  | none => exact Or.inl rfl
  | some st1 =>
    exact Or.inr ⟨st1,
      (if h.height.gt cs.latestHeight then { cs with latestHeight := h.height } else cs),
      rfl, rfl⟩

theorem chaus_inversion (cs : ClientState) (st : ClientStore) (h : Header) (now : Nat) :
    ((∃ e, checkHeaderAndUpdateState cs st h now = (UpdateRes.err e, st)) ∨
      checkHeaderAndUpdateState cs st h now = (UpdateRes.abort, st) ∨
      (∃ cs1 p, checkHeaderAndUpdateState cs st h now = (UpdateRes.ok cs1 p, st) ∧
        cs1.frozenHeight = frozenSentinel) ∨
      (∃ cs1 p, checkHeaderAndUpdateState cs st h now = (UpdateRes.ok cs1 p, st) ∧
        getConsensusState st h.height = some p)) ∨
    (∃ st1 cs1, pruneOldestConsensusState cs now st = some st1 ∧
      getConsensusState st h.height = none ∧
      (∀ hp cp, getPrevCons st.cons h.height = some (hp, cp) →
        cp.timestamp < h.consensusState.timestamp) ∧
      (∀ hn cn, getNextCons st.cons h.height = some (hn, cn) →
        h.consensusState.timestamp < cn.timestamp) ∧
      checkHeaderAndUpdateState cs st h now =
        (UpdateRes.ok cs1 h.consensusState, setConsMetadata st1 h.height)) := by
  cases hc : getConsensusState st h.height with
  | some p =>
    by_cases hpd : p = h.consensusState
    · have hout : checkHeaderAndUpdateState cs st h now = (UpdateRes.ok cs p, st) := by
        unfold checkHeaderAndUpdateState
        rw [hc]
        simp [hpd]
      exact Or.inl (Or.inr (Or.inr (Or.inr ⟨cs, p, hout, rfl⟩)))
    · have hnd1 : ∀ q, getConsensusState st h.height = some q → q ≠ h.consensusState := by
        intro q hq
        rw [hc] at hq
        injection hq with hq1
        rw [← hq1]
        exact hpd
      cases hts : getConsensusStateE st h.trustedHeight with
      | error u =>
        cases u
        exact Or.inl (Or.inl ⟨UpdateErr.trustedConsAbsent, chaus_err_of_trusted_absent hnd1 hts⟩)
      | ok t =>
        cases hv : checkValidity cs t h now with
        | error e =>
          exact Or.inl (Or.inl ⟨e, chaus_err_of_validity_err hnd1 hts hv⟩)
        | ok _ =>
          have hout : checkHeaderAndUpdateState cs st h now =
              (UpdateRes.ok { cs with frozenHeight := frozenSentinel } h.consensusState, st) := by
            unfold checkHeaderAndUpdateState
            simp only [hc, hts, hv, if_neg hpd]
            rfl
          exact Or.inl (Or.inr (Or.inr (Or.inl
            ⟨{ cs with frozenHeight := frozenSentinel }, h.consensusState, hout, rfl⟩)))
  | none =>
    have hnd1 : ∀ q, getConsensusState st h.height = some q → q ≠ h.consensusState := by
      intro q hq
      rw [hc] at hq
      exact Option.noConfusion hq
    cases hts : getConsensusStateE st h.trustedHeight with
    | error u =>
      cases u
      exact Or.inl (Or.inl ⟨UpdateErr.trustedConsAbsent, chaus_err_of_trusted_absent hnd1 hts⟩)
    | ok t =>
      cases hv : checkValidity cs t h now with
      | error e =>
        exact Or.inl (Or.inl ⟨e, chaus_err_of_validity_err hnd1 hts hv⟩)
      | ok _ =>
        cases hp : getPrevCons st.cons h.height with
        | some pq =>
          rcases pq with ⟨ph, pc⟩
          by_cases hple : h.consensusState.timestamp ≤ pc.timestamp
          · have hout : checkHeaderAndUpdateState cs st h now =
                (UpdateRes.ok { cs with frozenHeight := frozenSentinel } h.consensusState, st) := by
              unfold checkHeaderAndUpdateState
              simp only [hc, hts, hv, hp, if_pos hple] ; rfl
            exact Or.inl (Or.inr (Or.inr (Or.inl
              ⟨{ cs with frozenHeight := frozenSentinel }, h.consensusState, hout, rfl⟩)))
          · cases hn : getNextCons st.cons h.height with
            | some nq =>
              rcases nq with ⟨nh, nc⟩
              by_cases hnle : nc.timestamp ≤ h.consensusState.timestamp
              · have hout : checkHeaderAndUpdateState cs st h now =
                    (UpdateRes.ok { cs with frozenHeight := frozenSentinel }
                      h.consensusState, st) := by
                  unfold checkHeaderAndUpdateState
                  simp only [hc, hts, hv, hp, hn, if_neg hple, if_pos hnle] ; rfl
                exact Or.inl (Or.inr (Or.inr (Or.inl
                  ⟨{ cs with frozenHeight := frozenSentinel }, h.consensusState, hout, rfl⟩)))
              · have hout : checkHeaderAndUpdateState cs st h now = updateState cs st h now := by
                  unfold checkHeaderAndUpdateState
                  simp only [hc, hts, hv, hp, hn, if_neg hple, if_neg hnle] ; rfl
                rcases updateState_shape cs st h now hc with hab | ⟨st1, cs1, hpr, hup⟩
                · exact Or.inl (Or.inr (Or.inl (hout.trans hab)))
                · refine Or.inr ⟨st1, cs1, hpr, rfl, ?_, ?_, hout.trans hup⟩
                  · intro hp0 cp0 heq
                    injection heq with heq1
                    injection heq1 with heq2 heq3
                    subst heq3
                    omega
                  · intro hn0 cn0 heq
                    injection heq with heq1
                    injection heq1 with heq2 heq3
                    subst heq3
                    omega
            | none =>
              have hout : checkHeaderAndUpdateState cs st h now = updateState cs st h now := by
                unfold checkHeaderAndUpdateState
                simp only [hc, hts, hv, hp, hn, if_neg hple] ; rfl
              rcases updateState_shape cs st h now hc with hab | ⟨st1, cs1, hpr, hup⟩
              · exact Or.inl (Or.inr (Or.inl (hout.trans hab)))
              · refine Or.inr ⟨st1, cs1, hpr, rfl, ?_, ?_, hout.trans hup⟩
                · intro hp0 cp0 heq
                  injection heq with heq1
                  injection heq1 with heq2 heq3
                  subst heq3
                  omega
                · intro hn0 cn0 heq
                  exact Option.noConfusion heq
        | none =>
          cases hn : getNextCons st.cons h.height with
          | some nq =>
            rcases nq with ⟨nh, nc⟩
            by_cases hnle : nc.timestamp ≤ h.consensusState.timestamp
            · have hout : checkHeaderAndUpdateState cs st h now =
                  (UpdateRes.ok { cs with frozenHeight := frozenSentinel }
                    h.consensusState, st) := by
                unfold checkHeaderAndUpdateState
                simp only [hc, hts, hv, hp, hn, if_pos hnle] ; rfl
              exact Or.inl (Or.inr (Or.inr (Or.inl
                ⟨{ cs with frozenHeight := frozenSentinel }, h.consensusState, hout, rfl⟩)))
            · have hout : checkHeaderAndUpdateState cs st h now = updateState cs st h now := by
                unfold checkHeaderAndUpdateState
                simp only [hc, hts, hv, hp, hn, if_neg hnle] ; rfl
              rcases updateState_shape cs st h now hc with hab | ⟨st1, cs1, hpr, hup⟩
              · exact Or.inl (Or.inr (Or.inl (hout.trans hab)))
              · refine Or.inr ⟨st1, cs1, hpr, rfl, ?_, ?_, hout.trans hup⟩
                · intro hp0 cp0 heq
                  exact Option.noConfusion heq
                · intro hn0 cn0 heq
                  injection heq with heq1
                  injection heq1 with heq2 heq3
                  subst heq3
                  omega
          | none =>
            have hout : checkHeaderAndUpdateState cs st h now = updateState cs st h now := by
              unfold checkHeaderAndUpdateState
              simp only [hc, hts, hv, hp, hn] ; rfl
            rcases updateState_shape cs st h now hc with hab | ⟨st1, cs1, hpr, hup⟩
            · exact Or.inl (Or.inr (Or.inl (hout.trans hab)))
            · refine Or.inr ⟨st1, cs1, hpr, rfl, ?_, ?_, hout.trans hup⟩
              · intro hp0 cp0 heq
                exact Option.noConfusion heq
              · intro hn0 cn0 heq
                exact Option.noConfusion heq

/-! ### Claim theorems -/

/-- C10: `MergedClientStore.Set` and `MergedClientStore.Delete` never
mutate the substitute store; they write to (or delete from) the subject
store exactly when the key begins with "subject/" (with the prefix
stripped), and are no-ops for keys with the "substitute/" prefix or no
recognized prefix. -/
theorem claim_C10_merged_store_write_frame (ws : MergedClientStore) (key value : List Nat) :
    (mergedSet ws key value).substituteStore = ws.substituteStore ∧
    (mergedDelete ws key).substituteStore = ws.substituteStore ∧
    (subjectPfx.isPrefixOf key = true →
      (mergedSet ws key value).subjectStore =
          kvSet ws.subjectStore (key.drop subjectPfx.length) value ∧
        (mergedDelete ws key).subjectStore =
          kvDelete ws.subjectStore (key.drop subjectPfx.length)) ∧
    (subjectPfx.isPrefixOf key = false →
      mergedSet ws key value = ws ∧ mergedDelete ws key = ws) := by
  have hba : ¬ (substitutePfx = subjectPfx) := by decide
  have hbb : ¬ (subjectPfx = substitutePfx) := by decide
  have hea : ¬ (subjectPfx = ([] : List Nat)) := by decide
  have heb : ¬ (([] : List Nat) = subjectPfx) := by decide
  by_cases h1 : subjectPfx.isPrefixOf key = true
  · refine ⟨?_, ?_, ?_, ?_⟩ <;>
      simp [mergedSet, mergedDelete, splitPfx, h1]
  · have h1f : subjectPfx.isPrefixOf key = false := by
      rwa [Bool.not_eq_true] at h1
    by_cases h2 : substitutePfx.isPrefixOf key = true
    · refine ⟨?_, ?_, ?_, ?_⟩ <;>
        simp [mergedSet, mergedDelete, splitPfx, h1f, h2, hba, hbb]
    · have h2f : substitutePfx.isPrefixOf key = false := by
        rwa [Bool.not_eq_true] at h2
      refine ⟨?_, ?_, ?_, ?_⟩ <;>
        simp [mergedSet, mergedDelete, splitPfx, h1f, h2f, hea, heb]

/-- C10 witness: at a "subject/"-prefixed key the write lands in the
subject store with the prefix stripped, and the substitute store is
untouched. -/
theorem claim_C10_witness :
    (mergedSet wsEx (subjectPfx ++ [5]) [9]).substituteStore = wsEx.substituteStore ∧
    (mergedSet wsEx (subjectPfx ++ [5]) [9]).subjectStore =
      kvSet wsEx.subjectStore ((subjectPfx ++ [5]).drop subjectPfx.length) [9] :=
  ⟨(claim_C10_merged_store_write_frame wsEx (subjectPfx ++ [5]) [9]).1,
    ((claim_C10_merged_store_write_frame wsEx (subjectPfx ++ [5]) [9]).2.2.1 (by decide)).1⟩

/-- C8: on an UNORDERED channel, a second recvPacket for a sequence whose
PacketReceipt already exists returns success as a no-op: the application
callback is not invoked, no application events are emitted, and the
store is not mutated. -/
theorem claim_C8_unordered_replay_noop (st : ChannelStore) (pk : Packet) (destHeight : Height)
    (destTime : Nat) (proofOk : Bool) (app : Packet → Option Nat × Bool) (ch : ChannelEnd)
    (hch : st.channels.lookup (pk.destPort, pk.destChannel) = some ch)
    (hord : ch.ordering = ChanOrdering.unordered)
    (hrcpt : st.receipts.contains (pk.destPort, pk.destChannel, pk.sequence) = true) :
    recvPacket st pk destHeight destTime proofOk app =
      ⟨RecvRes.ok, st, false, []⟩ := by
  unfold recvPacket
  rw [hch]
  simp only [hord, hrcpt, if_pos]

/-- C8 witness: replaying the already-received sequence-1 packet on the
UNORDERED channel (2, 3) is a successful no-op. -/
theorem claim_C8_witness :
    recvPacket chanStoreEx pkEx ⟨1, 1⟩ 5 true (fun _ => (some 1, true)) =
      ⟨RecvRes.ok, chanStoreEx, false, []⟩ :=
  claim_C8_unordered_replay_noop chanStoreEx pkEx ⟨1, 1⟩ 5 true (fun _ => (some 1, true))
    ⟨ChanOrdering.unordered, ChanState.opened⟩ (by decide) (by decide) (by decide)

/-- C3: when the consensus state already stored at the header's height
equals the header's derived consensus state bit-for-bit,
CheckHeaderAndUpdateState returns the existing (clientState,
consensusState) pair unchanged and performs no store writes. -/
theorem claim_C3_duplicate_header_idempotent (cs : ClientState) (st : ClientStore) (h : Header)
    (now : Nat) (p : ConsensusState)
    (hp : getConsensusState st h.height = some p)
    (heq : p = h.consensusState) :
    checkHeaderAndUpdateState cs st h now = (UpdateRes.ok cs p, st) := by
  unfold checkHeaderAndUpdateState
  rw [hp]
  subst heq
  simp

/-- C3 witness: resubmitting `hdrEx` against the store already holding
its consensus state returns the pair unchanged with no store writes. -/
theorem claim_C3_witness :
    checkHeaderAndUpdateState csEx storeDupEx hdrEx 70 =
      (UpdateRes.ok csEx ⟨60, 8, 9⟩, storeDupEx) :=
  claim_C3_duplicate_header_idempotent csEx storeDupEx hdrEx 70 ⟨60, 8, 9⟩ (by decide) (by decide)

/-- C5 counterexample: with the earliest stored consensus-state entry
corrupted, the update path does not surface a synchronous error value —
it aborts (the Go code panics in `pruneOldestConsensusState`). -/
theorem claim_C5_counterexample :
    updateState csEx corruptStoreEx hdrEx 70 = (UpdateRes.abort, corruptStoreEx) ∧
    pruneOldestConsensusState csEx 70 corruptStoreEx = none := by
  exact ⟨rfl, rfl⟩

/-- C5 (amended): when reading the earliest stored consensus state fails
during pruning inside a header update, the operation aborts — the Go
panic, modelled as the `abort` outcome — rather than returning an error
value; the store is left unmutated. -/
theorem claim_C5_prune_corruption_aborts (cs : ClientState) (st : ClientStore) (h : Header)
    (now : Nat) (e : Height)
    (hdup : getConsensusState st h.height = none)
    (hcor : earliestEntry st.cons = some (e, ConsEntry.corrupt)) :
    updateState cs st h now = (UpdateRes.abort, st) := by
  unfold updateState
  rw [hdup]
  unfold pruneOldestConsensusState
  rw [hcor]

/-- C5 witness: the corrupted-earliest store concretely aborts. -/
theorem claim_C5_witness :
    updateState csEx corruptStoreEx hdrLateEx 150 = (UpdateRes.abort, corruptStoreEx) :=
  claim_C5_prune_corruption_aborts csEx corruptStoreEx hdrLateEx 150 ⟨0, 5⟩
    (by decide) (by decide)

/-- C4: a header that fails validity checking (for instance because the
trusting period has elapsed, or the header timestamp exceeds max clock
drift) makes the update return an error with no consensus state stored
and the client state unchanged (frozen height in particular stays as it
was). -/
theorem claim_C4_invalid_header_rejected (cs : ClientState) (st : ClientStore) (h : Header)
    (now : Nat) (trusted : ConsensusState) (e : UpdateErr)
    (hnotdup : ∀ p, getConsensusState st h.height = some p → p ≠ h.consensusState)
    (htr : getConsensusStateE st h.trustedHeight = Except.ok trusted)
    (hval : checkValidity cs trusted h now = Except.error e) :
    updateClient cs st h now = (UpdateRes.err e, cs, st) :=
  updateClient_of_err (chaus_err_of_validity_err hnotdup htr hval)

/-- C4 witness: the spec scenario — trusting period 100, trusted
consensus state at timestamp 0, header timestamp 140 delivered at time
150 — is rejected with the store and client state unchanged. -/
theorem claim_C4_witness :
    updateClient csEx storeT0Ex hdrLateEx 150 =
      (UpdateRes.err UpdateErr.verificationFailed, csEx, storeT0Ex) :=
  claim_C4_invalid_header_rejected csEx storeT0Ex hdrLateEx 150 trustedCons0Ex
    UpdateErr.verificationFailed
    (by
      intro p hp
      have hnone : getConsensusState storeT0Ex hdrLateEx.height = none := rfl
      rw [hnone] at hp
      exact Option.noConfusion hp)
    rfl rfl

/-- C9: a header whose height is at most its trusted height, or whose
revision number differs from the trusted height's, fails validity
checking with an error; through the update entry point (with no
consensus state stored at its height) it is rejected with no state
change. -/
theorem claim_C9_bad_height_rejected (cs : ClientState) (st : ClientStore)
    (trusted : ConsensusState) (h : Header) (now : Nat)
    (hbad : h.height.lte h.trustedHeight ∨
      h.height.revisionNumber ≠ h.trustedHeight.revisionNumber)
    (hnotdup : getConsensusState st h.height = none) :
    (∃ e, checkValidity cs trusted h now = Except.error e) ∧
    (∃ e, updateClient cs st h now = (UpdateRes.err e, cs, st)) := by
  refine ⟨checkValidity_err_of_bad_height cs trusted h now hbad, ?_⟩
  have hnd : ∀ p, getConsensusState st h.height = some p → p ≠ h.consensusState := by
    intro p hp
    rw [hnotdup] at hp
    exact absurd hp (by simp)
  cases hts : getConsensusStateE st h.trustedHeight with
  | error u =>
    cases u
    exact ⟨UpdateErr.trustedConsAbsent, updateClient_of_err (chaus_err_of_trusted_absent hnd hts)⟩
  | ok t1 =>
    rcases checkValidity_err_of_bad_height cs t1 h now hbad with ⟨e1, he1⟩
    exact ⟨e1, updateClient_of_err (chaus_err_of_validity_err hnd hts he1)⟩

/-- C9 witness: a header whose height is below its trusted height is
rejected both by checkValidity and by the update entry point. -/
theorem claim_C9_witness :
    (∃ e, checkValidity csEx trustedConsEx hdrLowEx 70 = Except.error e) ∧
    (∃ e, updateClient csEx storeEx hdrLowEx 70 = (UpdateRes.err e, csEx, storeEx)) :=
  claim_C9_bad_height_rejected csEx storeEx trustedConsEx hdrLowEx 70
    (Or.inl (Or.inl (by decide))) (by decide)

/-- C1: a valid header conflicting with the consensus state already
stored at its height makes the update return a client state frozen at
the nonzero sentinel, and the consensus state stored at that height is
left unchanged (the conflicting one is not recorded). -/
theorem claim_C1_conflicting_header_freezes (cs : ClientState) (st : ClientStore) (h : Header)
    (now : Nat) (p trusted : ConsensusState)
    (hp : getConsensusState st h.height = some p)
    (hne : p ≠ h.consensusState)
    (htr : getConsensusStateE st h.trustedHeight = Except.ok trusted)
    (hval : checkValidity cs trusted h now = Except.ok ()) :
    updateClient cs st h now =
      (UpdateRes.ok { cs with frozenHeight := frozenSentinel } h.consensusState,
        { cs with frozenHeight := frozenSentinel }, st) ∧
    frozenSentinel ≠ zeroHeight ∧
    getConsensusState (updateClient cs st h now).2.2 h.height = some p := by
  have hch : checkHeaderAndUpdateState cs st h now =
      (UpdateRes.ok { cs with frozenHeight := frozenSentinel } h.consensusState, st) := by
    unfold checkHeaderAndUpdateState
    simp only [hp, htr, hval, if_neg hne, if_pos]
  have hu : updateClient cs st h now =
      (UpdateRes.ok { cs with frozenHeight := frozenSentinel } h.consensusState,
        { cs with frozenHeight := frozenSentinel }, st) := by
    unfold updateClient
    rw [hch]
    simp [frozenSentinel_ne_zero]
  refine ⟨hu, frozenSentinel_ne_zero, ?_⟩
  rw [hu]
  exact hp

/-- C1 witness: the second (conflicting) header for height (0, 10)
freezes the client and leaves the stored consensus state at that height
unchanged. -/
theorem claim_C1_witness :
    updateClient csEx storeConflictEx hdrEx 70 =
      (UpdateRes.ok { csEx with frozenHeight := frozenSentinel } hdrEx.consensusState,
        { csEx with frozenHeight := frozenSentinel }, storeConflictEx) ∧
    frozenSentinel ≠ zeroHeight ∧
    getConsensusState (updateClient csEx storeConflictEx hdrEx 70).2.2 hdrEx.height =
      some ⟨61, 8, 9⟩ :=
  claim_C1_conflicting_header_freezes csEx storeConflictEx hdrEx 70 ⟨61, 8, 9⟩ trustedConsEx
    (by decide) (by decide) rfl rfl

/-- C7: on a successful non-duplicate update, UpdateState changes the
LatestHeight field exactly when the header's height is strictly greater
than the current one, and leaves every other client state field (chain
id, trust threshold, trusting period, max clock drift, unbonding period,
frozen height) unchanged. -/
theorem claim_C7_update_state_field_frame (cs : ClientState) (st st1 : ClientStore)
    (h : Header) (now : Nat)
    (hdup : getConsensusState st h.height = none)
    (hprune : pruneOldestConsensusState cs now st = some st1) :
    ∃ cs1, updateState cs st h now =
        (UpdateRes.ok cs1 h.consensusState, setConsMetadata st1 h.height) ∧
      cs1.chainId = cs.chainId ∧ cs1.trustLevelNum = cs.trustLevelNum ∧
      cs1.trustLevelDen = cs.trustLevelDen ∧ cs1.trustingPeriod = cs.trustingPeriod ∧
      cs1.maxClockDrift = cs.maxClockDrift ∧ cs1.unbondingPeriod = cs.unbondingPeriod ∧
      cs1.frozenHeight = cs.frozenHeight ∧
      (h.height.gt cs.latestHeight → cs1.latestHeight = h.height) ∧
      (cs1.latestHeight = cs.latestHeight ↔ ¬ h.height.gt cs.latestHeight) := by
  have hshape : updateState cs st h now =
      (UpdateRes.ok
        (if h.height.gt cs.latestHeight then { cs with latestHeight := h.height } else cs)
        h.consensusState, setConsMetadata st1 h.height) := by
    unfold updateState
    rw [hdup, hprune]
  by_cases hg : h.height.gt cs.latestHeight
  · rw [if_pos hg] at hshape
    exact ⟨_, hshape, rfl, rfl, rfl, rfl, rfl, rfl, rfl, fun _ => rfl,
      ⟨fun he => absurd he.symm (Height.ne_of_lt hg), fun hng => absurd hg hng⟩⟩
  · rw [if_neg hg] at hshape
    exact ⟨_, hshape, rfl, rfl, rfl, rfl, rfl, rfl, rfl, fun hc => absurd hc hg,
      ⟨fun _ => hg, fun _ => rfl⟩⟩

/-- C7 witness: the happy-path update at height (0, 10) over latest
height (0, 5) bumps LatestHeight and nothing else. -/
theorem claim_C7_witness :
    ∃ cs1, updateState csEx storeEx hdrEx 70 =
        (UpdateRes.ok cs1 hdrEx.consensusState, setConsMetadata storeEx hdrEx.height) ∧
      cs1.chainId = csEx.chainId ∧ cs1.trustLevelNum = csEx.trustLevelNum ∧
      cs1.trustLevelDen = csEx.trustLevelDen ∧ cs1.trustingPeriod = csEx.trustingPeriod ∧
      cs1.maxClockDrift = csEx.maxClockDrift ∧ cs1.unbondingPeriod = csEx.unbondingPeriod ∧
      cs1.frozenHeight = csEx.frozenHeight ∧
      (hdrEx.height.gt csEx.latestHeight → cs1.latestHeight = hdrEx.height) ∧
      (cs1.latestHeight = csEx.latestHeight ↔ ¬ hdrEx.height.gt csEx.latestHeight) :=
  claim_C7_update_state_field_frame csEx storeEx storeEx hdrEx 70 rfl rfl

/-- C6: on a successful non-duplicate update, the earliest stored
consensus state is deleted — together with its metadata — exactly when
it is expired; at most one consensus state (the earliest) is ever pruned
and no unexpired consensus state is deleted. -/
theorem claim_C6_prune_exactly_expired_earliest (cs : ClientState) (st : ClientStore)
    (h : Header) (now : Nat)
    (hnd : keysNodup st.cons)
    (hdup : getConsensusState st h.height = none)
    (hgood : ∀ e, earliestEntry st.cons ≠ some (e, ConsEntry.corrupt)) :
    (∀ g, lookupEntry st.cons g ≠ none →
      lookupEntry (updateState cs st h now).2.cons g = none →
      ∃ c, earliestEntry st.cons = some (g, ConsEntry.good c) ∧
        cs.isExpired c.timestamp now) ∧
    (∀ g c, earliestEntry st.cons = some (g, ConsEntry.good c) →
      cs.isExpired c.timestamp now →
      lookupEntry (updateState cs st h now).2.cons g = none ∧
        g ∉ (updateState cs st h now).2.meta) := by
  cases he : earliestEntry st.cons with
  | none =>
    have hpr : pruneOldestConsensusState cs now st = some st := by
      unfold pruneOldestConsensusState
      rw [he]
    have hshape : (updateState cs st h now).2 = setConsMetadata st h.height := by
      unfold updateState
      rw [hdup, hpr]
    rw [hshape]
    constructor
    · intro g hg hg'
      exact absurd hg' hg
    · intro g c hgc
      exact Option.noConfusion hgc
  | some p =>
    rcases p with ⟨e0, pe⟩
    cases pe with
    | corrupt => exact absurd he (hgood e0)
    | good c0 =>
      have hmem : (e0, ConsEntry.good c0) ∈ st.cons := earliestEntry_mem he
      have hcons : consAt st.cons e0 = some c0 := consAt_of_mem hnd hmem
      have hne : e0 ≠ h.height := by
        intro heq
        rw [heq] at hcons
        have hdup' : consAt st.cons h.height = none := hdup
        rw [hdup'] at hcons
        exact Option.noConfusion hcons
      by_cases hex : cs.isExpired c0.timestamp now
      · have hpr : pruneOldestConsensusState cs now st =
            some (deleteConsMetadata (deleteConsState st e0) e0) := by
          unfold pruneOldestConsensusState
          rw [he]
          simp [hex]
        have hshape : (updateState cs st h now).2 =
            setConsMetadata (deleteConsMetadata (deleteConsState st e0) e0) h.height := by
          unfold updateState
          rw [hdup, hpr]
        rw [hshape]
        constructor
        · intro g hg hg'
          simp only [setConsMetadata, deleteConsMetadata, deleteConsState] at hg'
          rw [lookupEntry_removeKey] at hg'
          by_cases hge : g = e0
          · subst hge
            exact ⟨c0, rfl, hex⟩
          · rw [if_neg hge] at hg'
            exact absurd hg' hg
        · intro g c hgc hexp
          injection hgc with hgc1
          injection hgc1 with hg1 hg2
          subst hg1
          constructor
          · simp only [setConsMetadata, deleteConsMetadata, deleteConsState]
            rw [lookupEntry_removeKey]
            simp
          · simp only [setConsMetadata, deleteConsMetadata, deleteConsState]
            simp [hne, List.mem_filter]
      · have hpr : pruneOldestConsensusState cs now st = some st := by
          unfold pruneOldestConsensusState
          rw [he]
          simp [hex]
        have hshape : (updateState cs st h now).2 = setConsMetadata st h.height := by
          unfold updateState
          rw [hdup, hpr]
        rw [hshape]
        constructor
        · intro g hg hg'
          exact absurd hg' hg
        · intro g c hgc hexp
          injection hgc with hgc1
          injection hgc1 with hg1 hg2
          subst hg1
          have hcc : ConsEntry.good c0 = ConsEntry.good c := hg2
          injection hcc with hcc1
          rw [← hcc1] at hexp
          exact absurd hexp hex

/-- C6 witness: at time 160 the expired earliest consensus state
(timestamp 50, trusting period 100) is pruned with its metadata. -/
theorem claim_C6_witness :
    lookupEntry (updateState csEx storeEx hdrEx 160).2.cons ⟨0, 5⟩ = none ∧
    (⟨0, 5⟩ : Height) ∉ (updateState csEx storeEx hdrEx 160).2.meta :=
  (claim_C6_prune_exactly_expired_earliest csEx storeEx hdrEx 160 (by decide) rfl
      (by
        intro e he
        have hv : earliestEntry storeEx.cons =
            some (⟨0, 5⟩, ConsEntry.good trustedConsEx) := rfl
        rw [hv] at he
        injection he with he1
        injection he1 with he2 he3
        exact ConsEntry.noConfusion he3)).2
    ⟨0, 5⟩ trustedConsEx rfl (by decide)

/-- Helper for the C2 witness: the two-entry example store is
timestamp-monotonic. -/
theorem monoNextViolEx : Monotonic storeNextViolEx := by
  intro h1 c1 h2 c2 hc1 hc2 hlt
  have m1 := consAt_some_mem hc1
  have m2 := consAt_some_mem hc2
  simp [storeNextViolEx, trustedConsEx, Prod.ext_iff] at m1 m2
  rcases m1 with ⟨e1, e2⟩ | ⟨e1, e2⟩ <;> rcases m2 with ⟨f1, f2⟩ | ⟨f1, f2⟩ <;>
    subst_vars <;>
    first
      | decide
      | exact absurd hlt (by decide)

/-- C2: a valid, non-duplicate, non-conflicting header whose timestamp
is not strictly between its neighbours' freezes the client (nonzero
frozen height) without recording the new consensus state; and every
update call preserves the invariant that over stored consensus states,
h1 < h2 implies timestamp h1 < timestamp h2. -/
theorem claim_C2_timestamp_monotonicity (cs : ClientState) (st : ClientStore) (h : Header)
    (now : Nat) :
    (∀ trusted,
      getConsensusState st h.height = none →
      getConsensusStateE st h.trustedHeight = Except.ok trusted →
      checkValidity cs trusted h now = Except.ok () →
      ((∃ q, getPrevCons st.cons h.height = some q ∧
          h.consensusState.timestamp ≤ q.2.timestamp) ∨
        (∃ q, getNextCons st.cons h.height = some q ∧
          q.2.timestamp ≤ h.consensusState.timestamp)) →
      updateClient cs st h now =
        (UpdateRes.ok { cs with frozenHeight := frozenSentinel } h.consensusState,
          { cs with frozenHeight := frozenSentinel }, st)) ∧
    (keysNodup st.cons → Monotonic st → Monotonic (updateClient cs st h now).2.2) := by
  constructor
  · intro trusted hdup htr hval hviol
    have hout : checkHeaderAndUpdateState cs st h now =
        (UpdateRes.ok { cs with frozenHeight := frozenSentinel } h.consensusState, st) := by
      rcases hviol with ⟨q, hq, hts1⟩ | ⟨q, hq, hts1⟩
      · rcases q with ⟨qh, qc⟩
        unfold checkHeaderAndUpdateState
        simp only [hdup, htr, hval, hq, if_pos hts1] ; rfl
      · rcases q with ⟨qh, qc⟩
        cases hp : getPrevCons st.cons h.height with
        | none =>
          unfold checkHeaderAndUpdateState
          simp only [hdup, htr, hval, hp, hq, if_pos hts1] ; rfl
        | some pq =>
          rcases pq with ⟨ph, pc⟩
          by_cases hple : h.consensusState.timestamp ≤ pc.timestamp
          · unfold checkHeaderAndUpdateState
            simp only [hdup, htr, hval, hp, if_pos hple] ; rfl
          · unfold checkHeaderAndUpdateState
            simp only [hdup, htr, hval, hp, hq, if_neg hple, if_pos hts1] ; rfl
    unfold updateClient
    rw [hout]
    simp [frozenSentinel_ne_zero]
  · intro hnd hmono
    rcases chaus_inversion cs st h now with
        (⟨e, he⟩ | hab | ⟨cs1, p, hok, hfz⟩ | ⟨cs1, p, hok, hstored⟩) |
        ⟨st1, cs1, hpr, hcnone, hprev, hnext, hout⟩
    · unfold updateClient
      rw [he]
      exact hmono
    · unfold updateClient
      rw [hab]
      exact hmono
    · unfold updateClient
      rw [hok]
      show Monotonic (if cs1.frozenHeight = zeroHeight
        then (UpdateRes.ok cs1 p, cs1, setConsStore st h.height p)
        else (UpdateRes.ok cs1 p, cs1, st)).2.2
      have hz : cs1.frozenHeight ≠ zeroHeight := by
        rw [hfz]
        exact frozenSentinel_ne_zero
      rw [if_neg hz]
      exact hmono
    · unfold updateClient
      rw [hok]
      show Monotonic (if cs1.frozenHeight = zeroHeight
        then (UpdateRes.ok cs1 p, cs1, setConsStore st h.height p)
        else (UpdateRes.ok cs1 p, cs1, st)).2.2
      by_cases hz : cs1.frozenHeight = zeroHeight
      · rw [if_pos hz]
        show MonotonicL ((h.height, ConsEntry.good p) :: removeKey st.cons h.height)
        refine monoL_subset ?_ hmono
        intro g c hc
        rw [consAt_setHead] at hc
        by_cases hg : g = h.height
        · rw [if_pos hg] at hc
          injection hc with hc1
          subst hc1
          rw [hg]
          exact hstored
        · rw [if_neg hg] at hc
          exact hc
      · rw [if_neg hz]
        exact hmono
    · unfold updateClient
      rw [hout]
      show Monotonic (if cs1.frozenHeight = zeroHeight
        then (UpdateRes.ok cs1 h.consensusState, cs1,
          setConsStore (setConsMetadata st1 h.height) h.height h.consensusState)
        else (UpdateRes.ok cs1 h.consensusState, cs1, setConsMetadata st1 h.height)).2.2
      by_cases hz : cs1.frozenHeight = zeroHeight
      · rw [if_pos hz]
        show MonotonicL ((h.height, ConsEntry.good h.consensusState) ::
          removeKey (setConsMetadata st1 h.height).cons h.height)
        exact monoL_insert (fun g c hc => prune_subset hpr g c hc) hnd hmono hprev hnext
      · rw [if_neg hz]
        exact monoL_subset (fun g c hc => prune_subset hpr g c hc) hmono

/-- C2 witness: the header at height (0, 10), timestamp 60, with a
stored consensus state at the larger height (0, 12) whose timestamp 55
is not after it, freezes the client without recording; and the resulting
store is still timestamp-monotonic. -/
theorem claim_C2_witness :
    updateClient csEx storeNextViolEx hdrEx 70 =
      (UpdateRes.ok { csEx with frozenHeight := frozenSentinel } hdrEx.consensusState,
        { csEx with frozenHeight := frozenSentinel }, storeNextViolEx) ∧
    Monotonic (updateClient csEx storeNextViolEx hdrEx 70).2.2 :=
  ⟨(claim_C2_timestamp_monotonicity csEx storeNextViolEx hdrEx 70).1 trustedConsEx rfl rfl rfl
      (Or.inr ⟨(⟨0, 12⟩, ⟨55, 9, 9⟩), rfl, by decide⟩),
    (claim_C2_timestamp_monotonicity csEx storeNextViolEx hdrEx 70).2 (by decide) monoNextViolEx⟩

end Ibc
